import Mathlib

/-!
Shallow embedding of the `files.core` repository: the document metadata
store, the MEGA remote-storage gateway and the synchronization reconciler
(`DocumentService.synchronizeMegaFiles`, `MegaStorageService.getAllFilesWithContent`),
the activity log (`LogService.log`), the credential store
(`UserMegaConfigService` over `EncryptionService`), together with
`DocumentService.toggleFavorite` and `DocumentService.deleteDocument`.

Conventions:
* JavaScript `Buffer`s are `List Nat` (byte sequences).
* Timestamps (`new Date()`) are `Nat` values passed in explicitly (`now`).
* The SHA-256 primitive (`crypto.createHash('sha256')`, an external library)
  is a parameter `hash : List Nat → String`; every theorem below holds for
  an arbitrary hash function, hence in particular for SHA-256.
* Database rows live in explicit state records; `prisma.document.update`
  / `create` / `delete` become pure state transformers; a thrown
  JavaScript error becomes `Except.error`.
* Of the two divergent document-service variants in the source, the
  hash-keyed one with type detection and tag merging (the canonical one per
  the spec) is embedded; it pairs with the multi-user gateway variant, as
  its `deleteFile(fileId, ownerId, folderId)` call shape shows.
-/

namespace FilesCore

/-- A row of the `Document` table (schema fields used by the services). -/
structure Document where
  id : Nat
  name : String
  type : String
  size : Nat
  description : Option String
  tags : String
  fileId : String
  hash : String
  ownerId : String
  isFavorite : Bool
  createdAt : Nat
  modifiedAt : Nat
  deriving Repr, DecidableEq

/-- One element of the list returned by
`MegaStorageService.getAllFilesWithContent`. -/
structure MegaFile where
  fileId : String
  name : String
  buffer : List Nat
  type : String
  mimeType : String
  size : Nat
  deriving Repr, DecidableEq

/-- A row of the activity-log table (`prisma.log`). -/
structure LogEntry where
  action : String
  entity : String
  entityId : String
  details : Option String
  userId : Option String
  documentId : Option String
  deriving Repr, DecidableEq

/-- The relational store as seen by the document service: the `Document`
table, the log table, and a fresh-id counter for `prisma.document.create`. -/
structure Db where
  documents : List Document
  logs : List LogEntry
  nextId : Nat
  deriving Repr, DecidableEq

/-- Substring test, the model of JavaScript `String.prototype.includes`. -/
def strIncludes (s sub : String) : Bool :=
  (List.range (s.length + 1)).any (fun i => ((s.drop i).take sub.length) == sub)

/-- JavaScript truthiness of an optional string (`undefined`, `null` and
`""` are falsy). -/
def jsTruthy : Option String → Bool
  | none => false
  | some s => s ≠ ""

/-- `fileName.split('.').pop()?.toLowerCase() || ''` — the extension used
by the type detector (for a dot-less name this is the whole name). -/
def fileExtension (fileName : String) : String :=
  match (fileName.splitOn ".").getLast? with
  | some s => s.toLower
  | none => ""

/-- Extension table of `DocumentService.getDocumentTypeFromFile`. -/
def typeMapping (ext : String) : Option String :=
  match ext with
  | "pdf" => some "document" | "doc" => some "document" | "docx" => some "document"
  | "txt" => some "document" | "rtf" => some "document" | "odt" => some "document"
  | "xls" => some "spreadsheet" | "xlsx" => some "spreadsheet"
  | "csv" => some "spreadsheet" | "ods" => some "spreadsheet"
  | "ppt" => some "presentation" | "pptx" => some "presentation" | "odp" => some "presentation"
  | "jpg" => some "image" | "jpeg" => some "image" | "png" => some "image"
  | "gif" => some "image" | "bmp" => some "image" | "svg" => some "image" | "webp" => some "image"
  | "mp4" => some "video" | "avi" => some "video" | "mov" => some "video"
  | "wmv" => some "video" | "webm" => some "video" | "mkv" => some "video"
  | "mp3" => some "audio" | "wav" => some "audio" | "ogg" => some "audio"
  | "flac" => some "audio" | "aac" => some "audio"
  | "zip" => some "archive" | "rar" => some "archive" | "7z" => some "archive"
  | "tar" => some "archive" | "gz" => some "archive"
  | "js" => some "code" | "ts" => some "code" | "html" => some "code"
  | "css" => some "code" | "json" => some "code" | "xml" => some "code"
  | "py" => some "code" | "java" => some "code" | "cpp" => some "code" | "c" => some "code"
  | _ => none

/-- `DocumentService.getDocumentTypeFromFile`: extension table first, then
MIME-prefix fallbacks, default `"document"`. -/
def getDocumentTypeFromFile (fileName : String) (mimeType : Option String) : String :=
  let extension := fileExtension fileName
  match typeMapping extension with
  | some t => t
  | none =>
    match mimeType with
    | some m =>
      if m.startsWith "image/" then "image"
      else if m.startsWith "video/" then "video"
      else if m.startsWith "audio/" then "audio"
      else if m.startsWith "text/" then "document"
      else if strIncludes m "pdf" then "document"
      else if strIncludes m "word" then "document"
      else if strIncludes m "excel" || strIncludes m "spreadsheet" then "spreadsheet"
      else if strIncludes m "powerpoint" || strIncludes m "presentation" then "presentation"
      else "document"
    | none => "document"

/-- Tag table of `DocumentService.addTagFromType`. -/
def typeTagMapping (t : String) : String :=
  match t with
  | "document" => "documents" | "spreadsheet" => "documents" | "presentation" => "documents"
  | "image" => "images" | "video" => "vidéos" | "audio" => "audio"
  | "archive" => "archives" | "code" => "code" | "other" => "autres"
  | _ => "autres"

/-- `DocumentService.addTagFromType`: split existing comma-joined tags,
append the type-derived tag if missing, re-join. -/
def addTagFromType (t : String) (existingTags : String) : String :=
  let typeTag := typeTagMapping t
  let tags := if existingTags == "" then []
              else (existingTags.splitOn ",").map (fun s => s.trim)
  if tags.contains typeTag then String.intercalate "," tags
  else String.intercalate "," (tags ++ [typeTag])

/-- `prisma.document.update({ where: { id }, data })`: replaces the matching
row(s) by `f` and returns the updated record, `none` when no row has the id
(Prisma then throws `RecordNotFound`). -/
def prismaDocUpdate (docs : List Document) (id : Nat) (f : Document → Document) :
    Option (Document × List Document) :=
  match docs.find? (fun d => d.id == id) with
  | none => none
  | some cur => some (f cur, docs.map (fun d => if d.id == id then f d else d))

/-- The `DOCUMENT_SYNC` activity-log entry written by the reconciler. -/
def syncLogEntry (docId : Nat) (owner : String) (details : String) : LogEntry :=
  { action := "DOCUMENT_SYNC", entity := "DOCUMENT", entityId := toString docId,
    details := some details, userId := some owner, documentId := none }

/-- The field changes applied by the reconciler's update branch
(`prisma.document.update` inside `synchronizeMegaFiles`): name, detected
type, merged tags, size, remote-file reference, modified timestamp. -/
def syncUpdateData (now : Nat) (mf : MegaFile) (detectedType snapshotTags : String)
    (d : Document) : Document :=
  { d with
    name := mf.name
    type := detectedType
    tags := addTagFromType detectedType snapshotTags
    size := mf.size
    fileId := mf.fileId
    modifiedAt := now }

/-- The document created by the reconciler's create branch
(`prisma.document.create` inside `synchronizeMegaFiles`); the favorite flag
and timestamps are the column defaults Prisma applies on create. -/
def syncNewDocument (now : Nat) (owner : String) (mf : MegaFile)
    (detectedType h : String) (freshId : Nat) : Document :=
  { id := freshId, name := mf.name, type := detectedType, size := mf.size,
    description := some "Document synchronisé depuis MEGA",
    tags := addTagFromType detectedType "synced",
    fileId := mf.fileId, hash := h, ownerId := owner,
    isFavorite := false, createdAt := now, modifiedAt := now }

/-- One iteration of the `for (const megaFile of megaFiles)` loop of
`DocumentService.synchronizeMegaFiles`: hash the buffer, look the hash up
in the snapshot `allDocuments` fetched before the loop, then either update
the matching document or create a new one.  Returns the new store plus the
record pushed to `newDocuments` (left) or `updatedDocuments` (right). -/
def processFile (hash : List Nat → String) (now : Nat) (owner : String)
    (snapshot : List Document) (mf : MegaFile) (db : Db) :
    Except String (Db × Option Document × Option Document) :=
  let h := hash mf.buffer
  match snapshot.find? (fun d => d.hash == h) with
  | some existing =>
    let detectedType := getDocumentTypeFromFile mf.name (some mf.mimeType)
    match prismaDocUpdate db.documents existing.id
        (syncUpdateData now mf detectedType existing.tags) with
    | none => Except.error "Record to update not found."
    | some (updatedDocument, docs) =>
      Except.ok
        ({ db with
            documents := docs
            logs := db.logs ++
              [syncLogEntry existing.id owner
                ("Document mis à jour lors de la synchronisation MEGA: " ++ mf.name)] },
         none, some updatedDocument)
  | none =>
    let detectedType := getDocumentTypeFromFile mf.name (some mf.mimeType)
    let document := syncNewDocument now owner mf detectedType h db.nextId
    Except.ok
      ({ documents := db.documents ++ [document]
         logs := db.logs ++
           [syncLogEntry document.id owner
             ("Nouveau document synchronisé depuis MEGA: " ++ document.name)]
         nextId := db.nextId + 1 },
       some document, none)

/-- The reconciliation loop: fold `processFile` over the remote files,
accumulating `newDocuments` and `updatedDocuments` in push order. -/
def reconcileLoop (hash : List Nat → String) (now : Nat) (owner : String)
    (snapshot : List Document) :
    List MegaFile → Db → List Document → List Document →
    Except String (Db × List Document × List Document)
  | [], db, news, upds => Except.ok (db, news, upds)
  | mf :: rest, db, news, upds =>
    match processFile hash now owner snapshot mf db with
    | Except.error e => Except.error e
    | Except.ok (db', newDoc, updDoc) =>
      reconcileLoop hash now owner snapshot rest db'
        (news ++ newDoc.toList) (upds ++ updDoc.toList)

/-- The result record of `synchronizeMegaFiles`. -/
structure SyncResult where
  syncedCount : Nat
  updatedCount : Nat
  newDocuments : List Document
  updatedDocuments : List Document
  deriving Repr, DecidableEq

/-- Steps 2–5 of `DocumentService.synchronizeMegaFiles` (everything after
the remote listing has been fetched): fetch the `allDocuments` projection
once, run the loop, return the counts and record lists. -/
def reconcile (hash : List Nat → String) (now : Nat) (owner : String)
    (megaFiles : List MegaFile) (db : Db) : Except String (SyncResult × Db) :=
  let allDocuments := db.documents
  match reconcileLoop hash now owner allDocuments megaFiles db [] [] with
  | Except.error e => Except.error e
  | Except.ok (db', news, upds) =>
    Except.ok
      ({ syncedCount := news.length, updatedCount := upds.length,
         newDocuments := news, updatedDocuments := upds }, db')

deriving instance DecidableEq for Except

/-- A megajs node as used by `MegaStorageService`: possibly missing node id
and name, a directory flag, the parent node (modelled by the parent's node
id), and the outcome `downloadBuffer` would produce for this node. -/
structure MegaNode where
  nodeId : Option String
  name : Option String
  directory : Bool
  parentId : Option String
  download : Except String (List Nat)
  deriving Repr, DecidableEq

/-- A megajs `Storage`: the root node id and the flat node list
(`storage.files`). -/
structure MegaStorage where
  rootId : String
  nodes : List MegaNode
  deriving Repr, DecidableEq

/-- The external connection layer (`getStorage`): credential resolution and
the per-user session cache, yielding a session's storage or a connection
error for a given optional user id. -/
structure MegaEnv where
  getStorage : Option String → Except String MegaStorage

/-- `MegaStorageService.getMimeType`: extension → MIME table with
`application/octet-stream` default. -/
def getMimeType (ext : String) : String :=
  match ext with
  | "pdf" => "application/pdf"
  | "jpg" => "image/jpeg" | "jpeg" => "image/jpeg" | "png" => "image/png"
  | "gif" => "image/gif" | "webp" => "image/webp" | "svg" => "image/svg+xml"
  | "doc" => "application/msword"
  | "docx" => "application/vnd.openxmlformats-officedocument.wordprocessingml.document"
  | "xls" => "application/vnd.ms-excel"
  | "xlsx" => "application/vnd.openxmlformats-officedocument.spreadsheetml.sheet"
  | "txt" => "text/plain"
  | _ => "application/octet-stream"

/-- Scope resolution of `getAllFilesWithContent`: with a folder id, find
that node (error if absent); otherwise use the root; then keep the
non-directory children of the target. -/
def scopeFiles (storage : MegaStorage) (folderId : Option String) :
    Except String (List MegaNode) :=
  match folderId with
  | some fid =>
    match storage.nodes.find? (fun n => n.nodeId == some fid) with
    | none => Except.error ("Dossier avec ID " ++ fid ++ " non trouvé")
    | some target =>
      Except.ok (storage.nodes.filter (fun n => n.parentId == target.nodeId && !n.directory))
  | none =>
    Except.ok (storage.nodes.filter (fun n => n.parentId == some storage.rootId && !n.directory))

/-- One iteration of the per-file loop of `getAllFilesWithContent`: skip a
node with missing id or name, catch and skip a download failure, skip an
empty buffer, otherwise build the
`{fileId, name, buffer, type, mimeType, size}` entry. -/
def keepNode (n : MegaNode) : Option MegaFile :=
  match n.nodeId, n.name with
  | some nid, some nm =>
    if nid == "" || nm == "" then none
    else
      match n.download with
      | Except.error _ => none
      | Except.ok buffer =>
        if buffer.length == 0 then none
        else some { fileId := nid, name := nm, buffer := buffer,
                    type := fileExtension nm, mimeType := getMimeType (fileExtension nm),
                    size := buffer.length }
  | _, _ => none

/-- The per-file loop of `getAllFilesWithContent`, in iteration order. -/
def collectFiles (nodes : List MegaNode) : List MegaFile := nodes.filterMap keepNode

/-- `MegaStorageService.getAllFilesWithContent(folderId?, userId?)`: connect
with the user's credentials, resolve the scope, run the per-file loop. -/
def getAllFilesWithContent (env : MegaEnv) (folderId userId : Option String) :
    Except String (List MegaFile) :=
  match env.getStorage userId with
  | Except.error e => Except.error e
  | Except.ok storage =>
    match scopeFiles storage folderId with
    | Except.error e => Except.error e
    | Except.ok files => Except.ok (collectFiles files)

/-- `DocumentService.synchronizeMegaFiles(defaultOwnerId, folderId?)`.
Step 1 is the call exactly as written in the source,
`this.megaStorageService.getAllFilesWithContent(defaultOwnerId, folderId)`,
whose parameters on the gateway side are `(folderId?, userId?)`; then the
reconciliation loop runs over the returned listing. -/
def synchronizeMegaFiles (hash : List Nat → String) (now : Nat) (env : MegaEnv)
    (defaultOwnerId : String) (folderId : Option String) (db : Db) :
    Except String (SyncResult × Db) :=
  match getAllFilesWithContent env (some defaultOwnerId) folderId with
  | Except.error e => Except.error e
  | Except.ok megaFiles => reconcile hash now defaultOwnerId megaFiles db

/-- `MegaStorageService.deleteFile(fileId, userId, folderId?)`: restrict the
search to the given folder's children when a folder id is supplied (error if
the folder is absent), else search the whole storage; error `Fichier non
trouvé` when the reference is not in scope; otherwise remove the node. -/
def megaDeleteFile (env : MegaEnv) (fileId userId : String) (folderId : Option String) :
    Except String MegaStorage :=
  match env.getStorage (some userId) with
  | Except.error e => Except.error e
  | Except.ok storage =>
    let searchFiles : Except String (List MegaNode) :=
      match folderId with
      | some fid =>
        match storage.nodes.find? (fun n => n.nodeId == some fid) with
        | none => Except.error ("Dossier avec ID " ++ fid ++ " non trouvé")
        | some folder => Except.ok (storage.nodes.filter (fun n => n.parentId == folder.nodeId))
      | none => Except.ok storage.nodes
    match searchFiles with
    | Except.error e => Except.error e
    | Except.ok files =>
      match files.find? (fun n => n.nodeId == some fileId) with
      | none => Except.error "Fichier non trouvé"
      | some _ =>
        Except.ok { storage with nodes := storage.nodes.filter (fun n => !(n.nodeId == some fileId)) }

/-- Observable steps of `DocumentService.deleteDocument`, in execution
order: audit-log write, remote delete (or its caught failure, downgraded to
a console warning), physical record delete. -/
inductive DelEvent
  | auditLogged
  | remoteDeleted
  | remoteDeleteWarned
  | dbDeleted
  deriving Repr, DecidableEq

/-- Return value of `deleteDocument` plus the ordered event trace. -/
structure DeleteOutcome where
  message : String
  events : List DelEvent
  deriving Repr, DecidableEq

/-- The `DOCUMENT_DELETE` activity-log entry. -/
def deleteLogEntry (doc : Document) (userId : String) : LogEntry :=
  { action := "DOCUMENT_DELETE", entity := "DOCUMENT", entityId := toString doc.id,
    details := some ("Document supprimé: " ++ doc.name), userId := some userId,
    documentId := some (toString doc.id) }

/-- `DocumentService.deleteDocument(id, userId, folderId?)`: find the record
(error if absent), write the audit entry BEFORE any deletion, attempt the
remote delete inside try/catch (a failure only warns), then delete the
record and return the success message.  The activity-log write itself is
modelled on its success path (`LogService.log` never throws, see below). -/
def deleteDocument (env : MegaEnv) (id : Nat) (userId : String) (folderId : Option String)
    (db : Db) : Except String (DeleteOutcome × Db) :=
  match db.documents.find? (fun d => d.id == id) with
  | none => Except.error "Document non trouvé"
  | some document =>
    let db1 := { db with logs := db.logs ++ [deleteLogEntry document userId] }
    let ev1 := [DelEvent.auditLogged]
    let ev2 :=
      if document.fileId ≠ "" then
        match megaDeleteFile env document.fileId document.ownerId folderId with
        | Except.ok _ => ev1 ++ [DelEvent.remoteDeleted]
        | Except.error _ => ev1 ++ [DelEvent.remoteDeleteWarned]
      else ev1
    let db2 := { db1 with documents := db1.documents.filter (fun d => !(d.id == id)) }
    Except.ok ({ message := "Document supprimé avec succès", events := ev2 ++ [DelEvent.dbDeleted] }, db2)

/-- State touched by `LogService`: the log table and the console error
stream. -/
structure LogState where
  entries : List LogEntry
  printed : List String
  deriving Repr, DecidableEq

/-- `prisma.log.create`: the underlying fallible write, with an injected
failure (`some e` makes the write throw `e`). -/
def prismaLogCreate (failure : Option String) (entry : LogEntry) (entries : List LogEntry) :
    Except String (List LogEntry) :=
  match failure with
  | some e => Except.error e
  | none => Except.ok (entries ++ [entry])

namespace LogService

/-- `LogService.log`: try the write; on failure, print the error to the
console and return normally. -/
def log (failure : Option String) (entry : LogEntry) (st : LogState) :
    Except String LogState :=
  match prismaLogCreate failure entry st.entries with
  | Except.ok entries => Except.ok { st with entries := entries }
  | Except.error e =>
    Except.ok { st with printed := st.printed ++ ["Erreur lors de l enregistrement du log: " ++ e] }

end LogService

/-- The `DOCUMENT_FAVORITE` / `DOCUMENT_UNFAVORITE` activity-log entry of
`toggleFavorite`. -/
def favoriteLogEntry (updated : Document) (userId : String) : LogEntry :=
  { action := if updated.isFavorite then "DOCUMENT_FAVORITE" else "DOCUMENT_UNFAVORITE",
    entity := "DOCUMENT", entityId := toString updated.id,
    details := some ((if updated.isFavorite then "Document ajouté aux favoris: "
                      else "Document retiré des favoris: ") ++ updated.name),
    userId := some userId, documentId := some (toString updated.id) }

/-- `DocumentService.toggleFavorite(id, userId)`: find the record (error if
absent), update it with the negated favorite flag and a fresh modified
timestamp, log, and return the updated record (the `include: owner`
enrichment of the returned row is presentation-only and not modelled). -/
def toggleFavorite (now : Nat) (id : Nat) (userId : String) (db : Db) :
    Except String (Document × Db) :=
  match db.documents.find? (fun d => d.id == id) with
  | none => Except.error "Document non trouvé"
  | some document =>
    match prismaDocUpdate db.documents id
        (fun d => { d with isFavorite := !document.isFavorite, modifiedAt := now }) with
    | none => Except.error "Record to update not found."
    | some (updated, docs) =>
      Except.ok (updated,
        { db with documents := docs, logs := db.logs ++ [favoriteLogEntry updated userId] })

/-! ### Encryption service and credential store

`EncryptionService` wraps Node's `aes-256-gcm`: a per-value random IV, a
CTR-style keystream XOR for the cipher text and an authentication tag,
stored as `ivHex:tagHex:cipherHex`.  The AES core is external; it is
modelled by an arbitrary keystream generator and an arbitrary tag (MAC)
function, both derived from the secret key the service holds.  Values are
hex-encoded in fixed-width chunks of 6 hex digits (enough for any Unicode
code point XOR-ed with a 24-bit keystream word). -/

/-- Hex digit characters, as in `Buffer.toString('hex')`. -/
def hexDigit (n : Nat) : Char :=
  match n with
  | 0 => '0' | 1 => '1' | 2 => '2' | 3 => '3' | 4 => '4'
  | 5 => '5' | 6 => '6' | 7 => '7' | 8 => '8' | 9 => '9'
  | 10 => 'a' | 11 => 'b' | 12 => 'c' | 13 => 'd' | 14 => 'e' | _ => 'f'

/-- Value of a hex digit character. -/
def hexVal (c : Char) : Nat :=
  match c with
  | '0' => 0 | '1' => 1 | '2' => 2 | '3' => 3 | '4' => 4
  | '5' => 5 | '6' => 6 | '7' => 7 | '8' => 8 | '9' => 9
  | 'a' => 10 | 'b' => 11 | 'c' => 12 | 'd' => 13 | 'e' => 14 | 'f' => 15
  | _ => 0

/-- One value as 6 hex digits (fixed width, values below `2^24`). -/
def encChunk (v : Nat) : List Char :=
  [hexDigit (v / 1048576 % 16), hexDigit (v / 65536 % 16), hexDigit (v / 4096 % 16),
   hexDigit (v / 256 % 16), hexDigit (v / 16 % 16), hexDigit (v % 16)]

/-- Hex encoding of a value sequence. -/
def encodeVals : List Nat → List Char
  | [] => []
  | v :: vs => encChunk v ++ encodeVals vs

/-- Hex decoding of a value sequence (6 digits per value). -/
def decodeVals : List Char → List Nat
  | a :: b :: c :: d :: e :: f :: rest =>
    (((((hexVal a * 16 + hexVal b) * 16 + hexVal c) * 16 + hexVal d) * 16 + hexVal e) * 16
        + hexVal f) :: decodeVals rest
  | _ => []

/-- Character-level split on `':'`, the model of JavaScript
`String.prototype.split(':')`. -/
def splitCh : List Char → List (List Char)
  | [] => [[]]
  | c :: rest =>
    if c = ':' then [] :: splitCh rest
    else
      match splitCh rest with
      | [] => [[c]]
      | p :: ps => (c :: p) :: ps

/-- CTR-style stream cipher step: XOR each value with the keystream word of
its position (keystream words taken modulo `2^24`). -/
def xorStream (ks : Nat → Nat) : Nat → List Nat → List Nat
  | _, [] => []
  | i, v :: vs => (v ^^^ (ks i % 16777216)) :: xorStream ks (i + 1) vs

/-- The encryption primitive held by `EncryptionService` (the AES-256-GCM
core, external to the repository): keystream words from the IV and
position, and an authentication tag from the IV and the cipher text. -/
structure EncryptionService where
  keyStream : List Nat → Nat → Nat
  mac : List Nat → List Nat → List Nat

/-- The cipher text of `cipher.update + cipher.final` for a plaintext. -/
def cipherText (es : EncryptionService) (iv : List Nat) (text : String) : List Nat :=
  xorStream (es.keyStream iv) 0 (text.data.map Char.toNat)

/-- The authentication tag as bytes (`cipher.getAuthTag`). -/
def macBytes (es : EncryptionService) (iv : List Nat) (ct : List Nat) : List Nat :=
  (es.mac iv ct).map (fun b => b % 256)

/-- `EncryptionService.encrypt`: draw a random IV (passed in, normalized to
bytes), encrypt, and return `ivHex ++ ":" ++ tagHex ++ ":" ++ cipherHex`. -/
def encrypt (es : EncryptionService) (iv : List Nat) (text : String) : String :=
  let ivb := iv.map (fun b => b % 256)
  let ct := cipherText es ivb text
  ⟨encodeVals ivb ++ ':' :: encodeVals (macBytes es ivb ct) ++ ':' :: encodeVals ct⟩

/-- `EncryptionService.decrypt`: split on `':'` (error unless exactly three
parts), decode IV, tag and cipher text, verify the tag (`setAuthTag` +
`final` throw on mismatch), and decrypt. -/
def decrypt (es : EncryptionService) (encryptedData : String) : Except String String :=
  match splitCh encryptedData.data with
  | [p0, p1, p2] =>
    let iv := decodeVals p0
    let authTag := decodeVals p1
    let ct := decodeVals p2
    if authTag = macBytes es iv ct then
      Except.ok ⟨(xorStream (es.keyStream iv) 0 ct).map Char.ofNat⟩
    else Except.error "Unsupported state or unable to authenticate data"
  | _ => Except.error "Format de données chiffrées invalide"

/-- A row of the `userMegaConfig` table: encrypted email and password. -/
structure UserMegaConfig where
  id : Nat
  userId : String
  email : String
  password : String
  isActive : Bool
  createdAt : Nat
  updatedAt : Nat
  deriving Repr, DecidableEq

/-- `UserMegaConfigResponse`: the shape returned to callers — it carries no
password field at all. -/
structure UserMegaConfigResponse where
  id : Nat
  userId : String
  email : String
  isActive : Bool
  createdAt : Nat
  updatedAt : Nat
  deriving Repr, DecidableEq

/-- Argument record of `upsertUserMegaConfig`. -/
structure UserMegaConfigData where
  email : String
  password : String
  isActive : Option Bool
  deriving Repr, DecidableEq

/-- The credential table with its fresh-id counter. -/
structure ConfigDb where
  configs : List UserMegaConfig
  nextId : Nat
  deriving Repr, DecidableEq

/-- Build a `UserMegaConfigResponse` from a stored row and the email text to
expose. -/
def responseOf (config : UserMegaConfig) (email : String) : UserMegaConfigResponse :=
  { id := config.id, userId := config.userId, email := email,
    isActive := config.isActive, createdAt := config.createdAt, updatedAt := config.updatedAt }

/-- `UserMegaConfigService.upsertUserMegaConfig`: encrypt email and password
(each under its own fresh IV), `prisma.userMegaConfig.upsert` by user id,
and return the response with the plaintext email (for display only). -/
def upsertUserMegaConfig (es : EncryptionService) (iv1 iv2 : List Nat) (now : Nat)
    (userId : String) (configData : UserMegaConfigData) (st : ConfigDb) :
    UserMegaConfigResponse × ConfigDb :=
  let encryptedEmail := encrypt es iv1 configData.email
  let encryptedPassword := encrypt es iv2 configData.password
  match st.configs.find? (fun c => c.userId == userId) with
  | some existing =>
    let config := { existing with
      email := encryptedEmail, password := encryptedPassword,
      isActive := configData.isActive.getD true, updatedAt := now }
    (responseOf config configData.email,
     { st with configs := st.configs.map (fun c => if c.userId == userId then
         { c with email := encryptedEmail, password := encryptedPassword,
                  isActive := configData.isActive.getD true, updatedAt := now } else c) })
  | none =>
    let config : UserMegaConfig := {
      id := st.nextId, userId := userId,
      email := encryptedEmail, password := encryptedPassword,
      isActive := configData.isActive.getD true, createdAt := now, updatedAt := now }
    (responseOf config configData.email,
     { configs := st.configs ++ [config], nextId := st.nextId + 1 })

/-- `UserMegaConfigService.getUserMegaConfig`: find the row, decrypt the
email for display; on decryption failure log and return `null` rather than
throwing.  The password is never decrypted nor returned here. -/
def getUserMegaConfig (es : EncryptionService) (userId : String) (st : ConfigDb) :
    Option UserMegaConfigResponse :=
  match st.configs.find? (fun c => c.userId == userId) with
  | none => none
  | some config =>
    match decrypt es config.email with
    | Except.error _ => none
    | Except.ok decryptedEmail => some (responseOf config decryptedEmail)

/-! ### Lemmas about the hex/split/stream primitives -/

theorem hexVal_hexDigit (d : Nat) (h : d < 16) : hexVal (hexDigit d) = d := by
  interval_cases d <;> rfl

theorem hexDigit_ne_colon (d : Nat) : hexDigit d ≠ ':' := by
  unfold hexDigit
  split <;> decide

theorem encChunk_ne_colon (v : Nat) : ∀ c ∈ encChunk v, c ≠ ':' := by
  intro c hc
  simp only [encChunk, List.mem_cons, List.not_mem_nil, or_false] at hc
  rcases hc with h | h | h | h | h | h <;> (subst h; exact hexDigit_ne_colon _)

theorem encodeVals_ne_colon (vs : List Nat) : ∀ c ∈ encodeVals vs, c ≠ ':' := by
  induction vs with
  | nil => intro c hc; simp [encodeVals] at hc
  | cons v vs ih =>
    intro c hc
    simp only [encodeVals, List.mem_append] at hc
    rcases hc with h | h
    · exact encChunk_ne_colon v c h
    · exact ih c h

theorem decodeVals_encChunk (v : Nat) (h : v < 16777216) (cs : List Char) :
    decodeVals (encChunk v ++ cs) = v :: decodeVals cs := by
  have b1 : v / 1048576 % 16 < 16 := Nat.mod_lt _ (by norm_num)
  have b2 : v / 65536 % 16 < 16 := Nat.mod_lt _ (by norm_num)
  have b3 : v / 4096 % 16 < 16 := Nat.mod_lt _ (by norm_num)
  have b4 : v / 256 % 16 < 16 := Nat.mod_lt _ (by norm_num)
  have b5 : v / 16 % 16 < 16 := Nat.mod_lt _ (by norm_num)
  have b6 : v % 16 < 16 := Nat.mod_lt _ (by norm_num)
  simp only [encChunk, List.cons_append, List.nil_append, decodeVals,
    hexVal_hexDigit _ b1, hexVal_hexDigit _ b2, hexVal_hexDigit _ b3,
    hexVal_hexDigit _ b4, hexVal_hexDigit _ b5, hexVal_hexDigit _ b6]
  congr 1
  omega

theorem decodeVals_encodeVals (vs : List Nat) (h : ∀ v ∈ vs, v < 16777216) :
    decodeVals (encodeVals vs) = vs := by
  induction vs with
  | nil => rfl
  | cons v vs ih =>
    have hv : v < 16777216 := h v (List.mem_cons_self v vs)
    rw [encodeVals, decodeVals_encChunk v hv, ih (fun w hw => h w (List.mem_cons_of_mem v hw))]

theorem splitCh_no_colon (xs : List Char) (h : ∀ c ∈ xs, c ≠ ':') : splitCh xs = [xs] := by
  induction xs with
  | nil => rfl
  | cons c rest ih =>
    have hc : c ≠ ':' := h c (List.mem_cons_self c rest)
    rw [splitCh, if_neg hc, ih (fun d hd => h d (List.mem_cons_of_mem c hd))]

theorem splitCh_append_colon (xs ys : List Char) (h : ∀ c ∈ xs, c ≠ ':') :
    splitCh (xs ++ ':' :: ys) = xs :: splitCh ys := by
  induction xs with
  | nil => simp [splitCh]
  | cons c rest ih =>
    have hc : c ≠ ':' := h c (List.mem_cons_self c rest)
    have ih' := ih (fun d hd => h d (List.mem_cons_of_mem c hd))
    rw [List.cons_append, splitCh, if_neg hc, ih']

theorem xorStream_involution (ks : Nat → Nat) (vs : List Nat) :
    ∀ i, xorStream ks i (xorStream ks i vs) = vs := by
  induction vs with
  | nil => intro i; rfl
  | cons v vs ih =>
    intro i
    rw [xorStream, xorStream, Nat.xor_cancel_right, ih]

theorem char_toNat_lt (c : Char) : c.toNat < 16777216 := by
  have h := c.valid
  rcases h with h | ⟨h1, h2⟩
  · have : c.val.toNat < 55296 := h
    simp [Char.toNat]; omega
  · have : c.val.toNat < 1114112 := h2
    simp [Char.toNat]; omega

theorem xorStream_lt (ks : Nat → Nat) (vs : List Nat) (h : ∀ v ∈ vs, v < 16777216) :
    ∀ i, ∀ w ∈ xorStream ks i vs, w < 16777216 := by
  induction vs with
  | nil => intro i w hw; simp [xorStream] at hw
  | cons v vs ih =>
    intro i w hw
    rw [xorStream] at hw
    rcases List.mem_cons.mp hw with h1 | h1
    · subst h1
      have hv : v < 2 ^ 24 := by norm_num at h ⊢; exact h.1
      have hk : ks i % 16777216 < 2 ^ 24 := by norm_num; exact Nat.mod_lt _ (by norm_num)
      have := Nat.xor_lt_two_pow hv hk
      norm_num at this
      exact this
    · exact ih (fun w hw => h w (List.mem_cons_of_mem v hw)) (i + 1) w h1

theorem cipherText_lt (es : EncryptionService) (iv : List Nat) (text : String) :
    ∀ w ∈ cipherText es iv text, w < 16777216 := by
  intro w hw
  refine xorStream_lt _ _ ?_ 0 w hw
  intro v hv
  rcases List.mem_map.mp hv with ⟨c, _, rfl⟩
  exact char_toNat_lt c

theorem macBytes_lt (es : EncryptionService) (iv ct : List Nat) :
    ∀ w ∈ macBytes es iv ct, w < 16777216 := by
  intro w hw
  rcases List.mem_map.mp hw with ⟨b, _, rfl⟩
  have : b % 256 < 256 := Nat.mod_lt _ (by norm_num)
  omega

theorem splitCh_three (A B C : List Char) (hA : ∀ c ∈ A, c ≠ ':')
    (hB : ∀ c ∈ B, c ≠ ':') (hC : ∀ c ∈ C, c ≠ ':') :
    splitCh (A ++ ':' :: B ++ ':' :: C) = [A, B, C] := by
  have h : A ++ ':' :: B ++ ':' :: C = A ++ ':' :: (B ++ ':' :: C) := by
    simp only [List.cons_append, List.append_assoc]
  rw [h, splitCh_append_colon _ _ hA, splitCh_append_colon _ _ hB, splitCh_no_colon _ hC]

/-- Decryption inverts encryption: the stored `iv:tag:cipher` string parses
back into its three parts, the recomputed tag matches, and the keystream
XOR cancels. -/
theorem decrypt_encrypt (es : EncryptionService) (iv : List Nat) (text : String) :
    decrypt es (encrypt es iv text) = Except.ok text := by
  have hivb : ∀ v ∈ iv.map (fun b => b % 256), v < 16777216 := by
    intro v hv
    rcases List.mem_map.mp hv with ⟨b, _, rfl⟩
    have : b % 256 < 256 := Nat.mod_lt _ (by norm_num)
    omega
  simp only [encrypt, decrypt]
  rw [splitCh_three _ _ _ (encodeVals_ne_colon _) (encodeVals_ne_colon _) (encodeVals_ne_colon _)]
  simp only [decodeVals_encodeVals _ hivb,
    decodeVals_encodeVals _ (macBytes_lt es _ _),
    decodeVals_encodeVals _ (cipherText_lt es _ text)]
  rw [if_pos trivial, cipherText, xorStream_involution, List.map_map]
  have h2 : (Char.ofNat ∘ Char.toNat) = id := funext Char.ofNat_toNat
  rw [h2, List.map_id]

/-- Full characterization of `get` after `upsert`: the response exposes the
plaintext email and the row metadata, and is independent of the password. -/
theorem getUserMegaConfig_upsert (es : EncryptionService) (iv1 iv2 : List Nat) (now : Nat)
    (uid : String) (data : UserMegaConfigData) (st : ConfigDb) :
    getUserMegaConfig es uid (upsertUserMegaConfig es iv1 iv2 now uid data st).2
      = some (match st.configs.find? (fun c => c.userId == uid) with
          | some existing =>
            { id := existing.id, userId := existing.userId, email := data.email,
              isActive := data.isActive.getD true, createdAt := existing.createdAt,
              updatedAt := now }
          | none =>
            { id := st.nextId, userId := uid, email := data.email,
              isActive := data.isActive.getD true, createdAt := now, updatedAt := now }) := by
  unfold upsertUserMegaConfig
  cases h : st.configs.find? (fun c => c.userId == uid) with
  | none =>
    unfold getUserMegaConfig
    rw [List.find?_append, h, Option.none_or]
    simp only [List.find?, beq_self_eq_true, decrypt_encrypt]
    rfl
  | some existing =>
    unfold getUserMegaConfig
    have hfind : (st.configs.map (fun c =>
        if c.userId == uid then
          { c with email := encrypt es iv1 data.email, password := encrypt es iv2 data.password,
                   isActive := data.isActive.getD true, updatedAt := now } else c)).find?
        (fun c => c.userId == uid)
        = some { existing with
            email := encrypt es iv1 data.email, password := encrypt es iv2 data.password,
            isActive := data.isActive.getD true, updatedAt := now } := by
      rw [List.find?_map]
      have hp : ((fun c : UserMegaConfig => c.userId == uid) ∘ (fun c =>
          if c.userId == uid then
            { c with email := encrypt es iv1 data.email, password := encrypt es iv2 data.password,
                     isActive := data.isActive.getD true, updatedAt := now } else c))
          = (fun c : UserMegaConfig => c.userId == uid) := by
        funext c
        by_cases hc : c.userId = uid
        · simp [hc]
        · simp [hc]
      rw [hp, h]
      have he' : existing.userId = uid := by
        have he := List.find?_some h
        simpa using he
      simp [he']
    simp only [hfind, decrypt_encrypt]
    rfl

/-- C6: Credential round-trip: for every user id, email and password,
`upsert` followed by `get` returns the original plaintext email; the
response is independent of the password (so `get` never returns it); each
value is encrypted under its own supplied fresh IV with an authentication
tag, and decryption inverts encryption. -/
theorem C6_credential_roundtrip (es : EncryptionService) (iv1 iv2 : List Nat)
    (now : Nat) (uid email p1 p2 : String) (active : Option Bool) (st : ConfigDb) :
    (∃ r, getUserMegaConfig es uid
        (upsertUserMegaConfig es iv1 iv2 now uid ⟨email, p1, active⟩ st).2 = some r
      ∧ r.email = email)
    ∧ getUserMegaConfig es uid (upsertUserMegaConfig es iv1 iv2 now uid ⟨email, p1, active⟩ st).2
      = getUserMegaConfig es uid (upsertUserMegaConfig es iv1 iv2 now uid ⟨email, p2, active⟩ st).2
    ∧ (∀ iv text, decrypt es (encrypt es iv text) = Except.ok text) := by
  refine ⟨?_, ?_, fun iv text => decrypt_encrypt es iv text⟩
  · rw [getUserMegaConfig_upsert]
    cases h : st.configs.find? (fun c => c.userId == uid) <;> exact ⟨_, rfl, rfl⟩
  · rw [getUserMegaConfig_upsert, getUserMegaConfig_upsert]

/-- A concrete cipher core for witnesses. -/
def demoEs : EncryptionService :=
  { keyStream := fun iv i => iv.headD 0 + i, mac := fun iv ct => [iv.length + ct.length] }

theorem C6_credential_roundtrip_witness :
    (∃ r, getUserMegaConfig demoEs "u1"
        (upsertUserMegaConfig demoEs [3] [4] 0 "u1" ⟨"a@b.c", "pw1", none⟩ ⟨[], 0⟩).2 = some r
      ∧ r.email = "a@b.c")
    ∧ getUserMegaConfig demoEs "u1"
        (upsertUserMegaConfig demoEs [3] [4] 0 "u1" ⟨"a@b.c", "pw1", none⟩ ⟨[], 0⟩).2
      = getUserMegaConfig demoEs "u1"
          (upsertUserMegaConfig demoEs [3] [4] 0 "u1" ⟨"a@b.c", "pw2", none⟩ ⟨[], 0⟩).2
    ∧ (∀ iv text, decrypt demoEs (encrypt demoEs iv text) = Except.ok text) :=
  C6_credential_roundtrip demoEs [3] [4] 0 "u1" "a@b.c" "pw1" "pw2" none ⟨[], 0⟩

/-! ### Lemmas about the reconciliation loop -/

theorem countP_congr {α : Type} (p q : α → Bool) (l : List α)
    (h : ∀ a ∈ l, p a = q a) : l.countP p = l.countP q := by
  induction l with
  | nil => rfl
  | cons a l ih =>
    rw [List.countP_cons, List.countP_cons, h a (List.mem_cons_self a l),
        ih (fun b hb => h b (List.mem_cons_of_mem a hb))]

theorem syncUpdateData_keeps (now : Nat) (mf : MegaFile) (dt tg : String) (d : Document) :
    (syncUpdateData now mf dt tg d).id = d.id ∧ (syncUpdateData now mf dt tg d).hash = d.hash :=
  ⟨rfl, rfl⟩

/-- The row function applied by the reconciler's `prisma.document.update`
preserves every row's id and hash. -/
theorem updateRow_keeps (i : Nat) (now : Nat) (mf : MegaFile) (dt tg : String) (x : Document) :
    ((if x.id == i then syncUpdateData now mf dt tg x else x).id = x.id
      ∧ (if x.id == i then syncUpdateData now mf dt tg x else x).hash = x.hash) := by
  by_cases h : x.id = i <;> simp [h, syncUpdateData]

theorem mem_map_preserving (docs : List Document) (f : Document → Document)
    (hf : ∀ x, (f x).id = x.id ∧ (f x).hash = x.hash) (d : Document) (hd : d ∈ docs) :
    ∃ d' ∈ docs.map f, d'.id = d.id ∧ d'.hash = d.hash :=
  ⟨f d, List.mem_map_of_mem f hd, (hf d).1, (hf d).2⟩

theorem prismaDocUpdate_eq (docs : List Document) (i : Nat) (f : Document → Document)
    (out : Document × List Document) (h : prismaDocUpdate docs i f = some out) :
    ∃ cur, docs.find? (fun d => d.id == i) = some cur ∧ out.1 = f cur
      ∧ out.2 = docs.map (fun d => if d.id == i then f d else d) := by
  unfold prismaDocUpdate at h
  cases hf : docs.find? (fun d => d.id == i) with
  | none => rw [hf] at h; cases h
  | some cur =>
    rw [hf] at h
    cases Option.some.inj h
    exact ⟨cur, rfl, rfl, rfl⟩

theorem prismaDocUpdate_isSome (docs : List Document) (i : Nat) (f : Document → Document)
    (h : ∃ d ∈ docs, d.id = i) : ∃ out, prismaDocUpdate docs i f = some out := by
  obtain ⟨d, hd, hdi⟩ := h
  have : (docs.find? (fun x => x.id == i)).isSome := by
    refine List.find?_isSome.mpr ⟨d, hd, ?_⟩
    simp [hdi]
  unfold prismaDocUpdate
  cases hf : docs.find? (fun x => x.id == i) with
  | none => rw [hf] at this; cases this
  | some cur => exact ⟨_, rfl⟩

/-- `processFile` preserves the presence of every (id, hash) pair in the
document table. -/
theorem processFile_preserves (hash : List Nat → String) (now : Nat) (owner : String)
    (snapshot : List Document) (mf : MegaFile) (db : Db) (out : Db × Option Document × Option Document)
    (h : processFile hash now owner snapshot mf db = Except.ok out) :
    ∀ i hsh, (∃ d ∈ db.documents, d.id = i ∧ d.hash = hsh) →
      ∃ d ∈ out.1.documents, d.id = i ∧ d.hash = hsh := by
  intro i hsh hpres
  obtain ⟨d, hd, hdi, hdh⟩ := hpres
  simp only [processFile] at h
  split at h
  · next existing hfind =>
    split at h
    · exact absurd h (by simp)
    · next updatedDocument docs hupd =>
      cases Except.ok.inj h
      obtain ⟨cur, hcur, hfst, hsnd⟩ := prismaDocUpdate_eq _ _ _ _ hupd
      have hdocs : docs = db.documents.map (fun x =>
          if x.id == existing.id then
            syncUpdateData now mf (getDocumentTypeFromFile mf.name (some mf.mimeType))
              existing.tags x else x) := hsnd
      show ∃ d' ∈ docs, d'.id = i ∧ d'.hash = hsh
      rw [hdocs]
      obtain ⟨d', hd', h1, h2⟩ := mem_map_preserving db.documents _
        (fun x => updateRow_keeps existing.id now mf _ existing.tags x) d hd
      exact ⟨d', hd', by rw [h1, hdi], by rw [h2, hdh]⟩
  · next hfind =>
    cases Except.ok.inj h
    exact ⟨d, List.mem_append_left _ hd, hdi, hdh⟩

/-- `processFile` never fails when every snapshot row's id is still present
in the table. -/
theorem processFile_total (hash : List Nat → String) (now : Nat) (owner : String)
    (snapshot : List Document) (mf : MegaFile) (db : Db)
    (hinv : ∀ s ∈ snapshot, ∃ d ∈ db.documents, d.id = s.id) :
    ∃ out, processFile hash now owner snapshot mf db = Except.ok out := by
  simp only [processFile]
  split
  · next existing hfind =>
    have hex : existing ∈ snapshot := List.mem_of_find?_eq_some hfind
    obtain ⟨pair, hpair⟩ := prismaDocUpdate_isSome db.documents existing.id
      (syncUpdateData now mf (getDocumentTypeFromFile mf.name (some mf.mimeType)) existing.tags)
      (hinv existing hex)
    obtain ⟨u, docs⟩ := pair
    rw [hpair]
    exact ⟨_, rfl⟩
  · next hfind => exact ⟨_, rfl⟩

/-- Characterization of the update branch of the loop body. -/
theorem processFile_update_eq (hash : List Nat → String) (now : Nat) (owner : String)
    (snapshot : List Document) (mf : MegaFile) (db : Db) (existing : Document)
    (pair : Document × List Document)
    (hfind : snapshot.find? (fun d => d.hash == hash mf.buffer) = some existing)
    (hpair : prismaDocUpdate db.documents existing.id
        (syncUpdateData now mf (getDocumentTypeFromFile mf.name (some mf.mimeType)) existing.tags)
        = some pair) :
    processFile hash now owner snapshot mf db = Except.ok
      ({ db with
          documents := pair.2,
          logs := db.logs ++ [syncLogEntry existing.id owner
            ("Document mis à jour lors de la synchronisation MEGA: " ++ mf.name)] },
       none, some pair.1) := by
  simp only [processFile]
  split
  · next ex hf =>
    rw [hfind] at hf
    cases Option.some.inj hf
    split
    · next hupd => rw [hpair] at hupd; cases hupd
    · next u docs hupd =>
      rw [hpair] at hupd
      cases Option.some.inj hupd
      rfl
  · next hf => rw [hfind] at hf; cases hf

/-- Characterization of the create branch of the loop body. -/
theorem processFile_create_eq (hash : List Nat → String) (now : Nat) (owner : String)
    (snapshot : List Document) (mf : MegaFile) (db : Db)
    (hfind : snapshot.find? (fun d => d.hash == hash mf.buffer) = none) :
    processFile hash now owner snapshot mf db = Except.ok
      ({ documents := db.documents ++ [syncNewDocument now owner mf
            (getDocumentTypeFromFile mf.name (some mf.mimeType)) (hash mf.buffer) db.nextId],
         logs := db.logs ++ [syncLogEntry db.nextId owner
           ("Nouveau document synchronisé depuis MEGA: " ++ mf.name)],
         nextId := db.nextId + 1 },
       some (syncNewDocument now owner mf (getDocumentTypeFromFile mf.name (some mf.mimeType))
         (hash mf.buffer) db.nextId), none) := by
  simp only [processFile]
  split
  · next ex hf => rw [hfind] at hf; cases hf
  · next hf => rfl

/-- Unfolding of the loop over a cons cell when the body succeeds. -/
theorem reconcileLoop_cons_eq (hash : List Nat → String) (now : Nat) (owner : String)
    (snapshot : List Document) (mf : MegaFile) (rest : List MegaFile) (db : Db)
    (news upds : List Document) (trip : Db × Option Document × Option Document)
    (h : processFile hash now owner snapshot mf db = Except.ok trip) :
    reconcileLoop hash now owner snapshot (mf :: rest) db news upds
      = reconcileLoop hash now owner snapshot rest trip.1
          (news ++ trip.2.1.toList) (upds ++ trip.2.2.toList) := by
  obtain ⟨db', nd, ud⟩ := trip
  simp only [reconcileLoop]
  rw [h]

/-- (id, hash) presence in the document table is preserved by the loop. -/
theorem reconcileLoop_preserves (hash : List Nat → String) (now : Nat) (owner : String)
    (snapshot : List Document) :
    ∀ (files : List MegaFile) (db : Db) (news upds : List Document)
      (out : Db × List Document × List Document),
    reconcileLoop hash now owner snapshot files db news upds = Except.ok out →
    ∀ i hsh, (∃ d ∈ db.documents, d.id = i ∧ d.hash = hsh) →
      ∃ d ∈ out.1.documents, d.id = i ∧ d.hash = hsh := by
  intro files
  induction files with
  | nil =>
    intro db news upds out h i hsh hp
    cases Except.ok.inj h
    exact hp
  | cons mf rest ih =>
    intro db news upds out h i hsh hp
    cases heq : processFile hash now owner snapshot mf db with
    | error e =>
      rw [reconcileLoop, heq] at h
      cases h
    | ok trip =>
      rw [reconcileLoop_cons_eq hash now owner snapshot mf rest db news upds trip heq] at h
      exact ih trip.1 _ _ out h i hsh (processFile_preserves _ _ _ _ _ _ _ heq i hsh hp)

/-- The loop never fails when the snapshot rows are present in the table. -/
theorem reconcileLoop_total (hash : List Nat → String) (now : Nat) (owner : String)
    (snapshot : List Document) :
    ∀ (files : List MegaFile) (db : Db) (news upds : List Document),
    (∀ s ∈ snapshot, ∃ d ∈ db.documents, d.id = s.id ∧ d.hash = s.hash) →
    ∃ out, reconcileLoop hash now owner snapshot files db news upds = Except.ok out := by
  intro files
  induction files with
  | nil => intro db news upds hinv; exact ⟨_, rfl⟩
  | cons mf rest ih =>
    intro db news upds hinv
    obtain ⟨trip, heq⟩ := processFile_total hash now owner snapshot mf db
      (fun s hs => ((hinv s hs).imp (fun d hd => ⟨hd.1, hd.2.1⟩)))
    have hinv' : ∀ s ∈ snapshot, ∃ d ∈ trip.1.documents, d.id = s.id ∧ d.hash = s.hash :=
      fun s hs => processFile_preserves _ _ _ _ _ _ _ heq s.id s.hash (hinv s hs)
    obtain ⟨out, hout⟩ := ih trip.1 (news ++ trip.2.1.toList) (upds ++ trip.2.2.toList) hinv'
    refine ⟨out, ?_⟩
    rw [reconcileLoop_cons_eq hash now owner snapshot mf rest db news upds trip heq]
    exact hout

/-- After the body processes a file, a document carrying that file's hash is
in the table (given the snapshot invariant). -/
theorem processFile_adds_hash (hash : List Nat → String) (now : Nat) (owner : String)
    (snapshot : List Document) (mf : MegaFile) (db : Db)
    (out : Db × Option Document × Option Document)
    (hinv : ∀ s ∈ snapshot, ∃ d ∈ db.documents, d.id = s.id ∧ d.hash = s.hash)
    (h : processFile hash now owner snapshot mf db = Except.ok out) :
    ∃ d ∈ out.1.documents, d.hash = hash mf.buffer := by
  simp only [processFile] at h
  split at h
  · next existing hfind =>
    split at h
    · exact absurd h (by simp)
    · next u docs hupd =>
      cases Except.ok.inj h
      have hexh : existing.hash = hash mf.buffer := by
        have hx := List.find?_some hfind
        simpa using hx
      obtain ⟨d, hd, hdi, hdh⟩ := hinv existing (List.mem_of_find?_eq_some hfind)
      obtain ⟨cur, hcur, hfst, hsnd⟩ := prismaDocUpdate_eq _ _ _ _ hupd
      have hdocs : docs = db.documents.map (fun x =>
          if x.id == existing.id then
            syncUpdateData now mf (getDocumentTypeFromFile mf.name (some mf.mimeType))
              existing.tags x else x) := hsnd
      show ∃ d' ∈ docs, d'.hash = hash mf.buffer
      rw [hdocs]
      obtain ⟨d', hd', h1, h2⟩ := mem_map_preserving db.documents _
        (fun x => updateRow_keeps existing.id now mf _ existing.tags x) d hd
      exact ⟨d', hd', by rw [h2, hdh, hexh]⟩
  · next hfind =>
    cases Except.ok.inj h
    exact ⟨_, List.mem_append_right _ (List.mem_singleton_self _), rfl⟩

/-- After a successful run of the loop, every processed file's hash is
carried by some document in the final table. -/
theorem reconcileLoop_covers (hash : List Nat → String) (now : Nat) (owner : String)
    (snapshot : List Document) :
    ∀ (files : List MegaFile) (db : Db) (news upds : List Document)
      (out : Db × List Document × List Document),
    (∀ s ∈ snapshot, ∃ d ∈ db.documents, d.id = s.id ∧ d.hash = s.hash) →
    reconcileLoop hash now owner snapshot files db news upds = Except.ok out →
    ∀ mf ∈ files, ∃ d ∈ out.1.documents, d.hash = hash mf.buffer := by
  intro files
  induction files with
  | nil => intro db news upds out hinv h mf hmf; cases hmf
  | cons mf0 rest ih =>
    intro db news upds out hinv h mf hmf
    cases heq : processFile hash now owner snapshot mf0 db with
    | error e => rw [reconcileLoop, heq] at h; cases h
    | ok trip =>
      rw [reconcileLoop_cons_eq hash now owner snapshot mf0 rest db news upds trip heq] at h
      have hinv' : ∀ s ∈ snapshot, ∃ d ∈ trip.1.documents, d.id = s.id ∧ d.hash = s.hash :=
        fun s hs => processFile_preserves _ _ _ _ _ _ _ heq s.id s.hash (hinv s hs)
      rcases List.mem_cons.mp hmf with rfl | hmf'
      · obtain ⟨d0, hd0, hh0⟩ := processFile_adds_hash _ _ _ _ _ _ _ hinv heq
        obtain ⟨d, hd, _, hdh⟩ := reconcileLoop_preserves hash now owner snapshot rest trip.1
          _ _ out h d0.id (hash mf.buffer) ⟨d0, hd0, rfl, hh0⟩
        exact ⟨d, hd, hdh⟩
      · exact ih trip.1 _ _ out hinv' h mf hmf'

/-- When the file's hash occurs in the snapshot, the body takes the update
branch: nothing is pushed to `newDocuments`. -/
theorem processFile_no_create (hash : List Nat → String) (now : Nat) (owner : String)
    (snapshot : List Document) (mf : MegaFile) (db : Db)
    (hinv : ∀ s ∈ snapshot, ∃ d ∈ db.documents, d.id = s.id)
    (hmatch : ∃ s ∈ snapshot, s.hash = hash mf.buffer) :
    ∃ trip, processFile hash now owner snapshot mf db = Except.ok trip ∧ trip.2.1 = none := by
  obtain ⟨s, hs, hsh⟩ := hmatch
  have hfs : (snapshot.find? (fun d => d.hash == hash mf.buffer)).isSome :=
    List.find?_isSome.mpr ⟨s, hs, by simp [hsh]⟩
  cases hfind : snapshot.find? (fun d => d.hash == hash mf.buffer) with
  | none => rw [hfind] at hfs; cases hfs
  | some existing =>
    obtain ⟨pair, hpair⟩ := prismaDocUpdate_isSome db.documents existing.id
      (syncUpdateData now mf (getDocumentTypeFromFile mf.name (some mf.mimeType)) existing.tags)
      (hinv existing (List.mem_of_find?_eq_some hfind))
    exact ⟨_, processFile_update_eq hash now owner snapshot mf db existing pair hfind hpair, rfl⟩

/-- The body pushes exactly one record: either a create or an update. -/
theorem processFile_one (hash : List Nat → String) (now : Nat) (owner : String)
    (snapshot : List Document) (mf : MegaFile) (db : Db)
    (trip : Db × Option Document × Option Document)
    (h : processFile hash now owner snapshot mf db = Except.ok trip) :
    trip.2.1.toList.length + trip.2.2.toList.length = 1 := by
  simp only [processFile] at h
  split at h
  · split at h
    · exact absurd h (by simp)
    · cases Except.ok.inj h; rfl
  · cases Except.ok.inj h; rfl

/-- A record pushed to `newDocuments` by the body has a hash that no
snapshot row carries. -/
theorem processFile_new_not_matched (hash : List Nat → String) (now : Nat) (owner : String)
    (snapshot : List Document) (mf : MegaFile) (db : Db)
    (trip : Db × Option Document × Option Document)
    (h : processFile hash now owner snapshot mf db = Except.ok trip) :
    ∀ d ∈ trip.2.1.toList, ∀ s ∈ snapshot, s.hash ≠ d.hash := by
  simp only [processFile] at h
  split at h
  · split at h
    · exact absurd h (by simp)
    · cases Except.ok.inj h
      intro d hd
      simp at hd
  · next hfind =>
    cases Except.ok.inj h
    intro d hd s hs
    have hd' : d = syncNewDocument now owner mf
        (getDocumentTypeFromFile mf.name (some mf.mimeType)) (hash mf.buffer) db.nextId := by
      simpa using hd
    subst hd'
    have hno := List.find?_eq_none.mp hfind s hs
    intro hcontra
    apply hno
    simp only [syncNewDocument] at hcontra
    simp [hcontra]

/-- The body preserves the number of documents carrying any hash that some
snapshot row carries. -/
theorem processFile_countP (hash : List Nat → String) (now : Nat) (owner : String)
    (snapshot : List Document) (mf : MegaFile) (db : Db)
    (trip : Db × Option Document × Option Document) (hsh : String)
    (h : processFile hash now owner snapshot mf db = Except.ok trip)
    (hpresent : ∃ s ∈ snapshot, s.hash = hsh) :
    trip.1.documents.countP (fun d => d.hash == hsh)
      = db.documents.countP (fun d => d.hash == hsh) := by
  simp only [processFile] at h
  split at h
  · next existing hfind =>
    split at h
    · exact absurd h (by simp)
    · next u docs hupd =>
      cases Except.ok.inj h
      obtain ⟨cur, hcur, hfst, hsnd⟩ := prismaDocUpdate_eq _ _ _ _ hupd
      have hdocs : docs = db.documents.map (fun x =>
          if x.id == existing.id then
            syncUpdateData now mf (getDocumentTypeFromFile mf.name (some mf.mimeType))
              existing.tags x else x) := hsnd
      show docs.countP _ = _
      rw [hdocs, List.countP_map]
      exact countP_congr _ _ _ (fun a _ => by
        have hk := (updateRow_keeps existing.id now mf
          (getDocumentTypeFromFile mf.name (some mf.mimeType)) existing.tags a).2
        simp only [Function.comp_apply, hk])
  · next hfind =>
    cases Except.ok.inj h
    obtain ⟨s, hs, hsh_eq⟩ := hpresent
    have hne : hash mf.buffer ≠ hsh := by
      intro heq
      exact List.find?_eq_none.mp hfind s hs (by simp [hsh_eq, heq])
    show (db.documents ++ [_]).countP _ = _
    rw [List.countP_append]
    have hzero : ((syncNewDocument now owner mf
        (getDocumentTypeFromFile mf.name (some mf.mimeType)) (hash mf.buffer) db.nextId).hash
          == hsh) = false := by
      simp [syncNewDocument, hne]
    simp [List.countP_cons, hzero]

/-- If every file's hash is matched in the snapshot, the loop leaves the
`newDocuments` accumulator unchanged (zero creates). -/
theorem reconcileLoop_all_matched (hash : List Nat → String) (now : Nat) (owner : String)
    (snapshot : List Document) :
    ∀ (files : List MegaFile) (db : Db) (news upds : List Document),
    (∀ s ∈ snapshot, ∃ d ∈ db.documents, d.id = s.id ∧ d.hash = s.hash) →
    (∀ mf ∈ files, ∃ s ∈ snapshot, s.hash = hash mf.buffer) →
    ∃ out, reconcileLoop hash now owner snapshot files db news upds = Except.ok out
      ∧ out.2.1 = news := by
  intro files
  induction files with
  | nil => intro db news upds hinv hm; exact ⟨_, rfl, rfl⟩
  | cons mf rest ih =>
    intro db news upds hinv hm
    obtain ⟨trip, hpf, hnone⟩ := processFile_no_create hash now owner snapshot mf db
      (fun s hs => ((hinv s hs).imp (fun d hd => ⟨hd.1, hd.2.1⟩)))
      (hm mf (List.mem_cons_self mf rest))
    have hinv' : ∀ s ∈ snapshot, ∃ d ∈ trip.1.documents, d.id = s.id ∧ d.hash = s.hash :=
      fun s hs => processFile_preserves _ _ _ _ _ _ _ hpf s.id s.hash (hinv s hs)
    have hacc : news ++ trip.2.1.toList = news := by rw [hnone]; simp
    obtain ⟨out, hout, hnews⟩ := ih trip.1 news (upds ++ trip.2.2.toList) hinv'
      (fun mf' hmf' => hm mf' (List.mem_cons_of_mem mf hmf'))
    refine ⟨out, ?_, hnews⟩
    rw [reconcileLoop_cons_eq hash now owner snapshot mf rest db news upds trip hpf, hacc]
    exact hout

/-- The loop's two accumulators together grow by exactly one record per
processed file. -/
theorem reconcileLoop_counts (hash : List Nat → String) (now : Nat) (owner : String)
    (snapshot : List Document) :
    ∀ (files : List MegaFile) (db : Db) (news upds : List Document)
      (out : Db × List Document × List Document),
    reconcileLoop hash now owner snapshot files db news upds = Except.ok out →
    out.2.1.length + out.2.2.length = news.length + upds.length + files.length := by
  intro files
  induction files with
  | nil =>
    intro db news upds out h
    cases Except.ok.inj h
    simp
  | cons mf rest ih =>
    intro db news upds out h
    cases heq : processFile hash now owner snapshot mf db with
    | error e => rw [reconcileLoop, heq] at h; cases h
    | ok trip =>
      rw [reconcileLoop_cons_eq hash now owner snapshot mf rest db news upds trip heq] at h
      have hlen := ih _ _ _ _ h
      have hone := processFile_one hash now owner snapshot mf db trip heq
      rw [List.length_append, List.length_append] at hlen
      rw [hlen, List.length_cons]
      omega

/-- Records accumulated in `newDocuments` never carry a hash present in the
snapshot. -/
theorem reconcileLoop_new_fresh (hash : List Nat → String) (now : Nat) (owner : String)
    (snapshot : List Document) :
    ∀ (files : List MegaFile) (db : Db) (news upds : List Document)
      (out : Db × List Document × List Document),
    reconcileLoop hash now owner snapshot files db news upds = Except.ok out →
    (∀ d ∈ news, ∀ s ∈ snapshot, s.hash ≠ d.hash) →
    ∀ d ∈ out.2.1, ∀ s ∈ snapshot, s.hash ≠ d.hash := by
  intro files
  induction files with
  | nil =>
    intro db news upds out h hacc
    cases Except.ok.inj h
    exact hacc
  | cons mf rest ih =>
    intro db news upds out h hacc
    cases heq : processFile hash now owner snapshot mf db with
    | error e => rw [reconcileLoop, heq] at h; cases h
    | ok trip =>
      rw [reconcileLoop_cons_eq hash now owner snapshot mf rest db news upds trip heq] at h
      refine ih _ _ _ _ h ?_
      intro d hd
      rcases List.mem_append.mp hd with hd' | hd'
      · exact hacc d hd'
      · exact processFile_new_not_matched hash now owner snapshot mf db trip heq d hd'

/-- The loop preserves the count of documents carrying any hash present in
the snapshot. -/
theorem reconcileLoop_countP (hash : List Nat → String) (now : Nat) (owner : String)
    (snapshot : List Document) :
    ∀ (files : List MegaFile) (db : Db) (news upds : List Document)
      (out : Db × List Document × List Document),
    reconcileLoop hash now owner snapshot files db news upds = Except.ok out →
    ∀ hsh, (∃ s ∈ snapshot, s.hash = hsh) →
    out.1.documents.countP (fun d => d.hash == hsh)
      = db.documents.countP (fun d => d.hash == hsh) := by
  intro files
  induction files with
  | nil =>
    intro db news upds out h hsh hp
    cases Except.ok.inj h
    rfl
  | cons mf rest ih =>
    intro db news upds out h hsh hp
    cases heq : processFile hash now owner snapshot mf db with
    | error e => rw [reconcileLoop, heq] at h; cases h
    | ok trip =>
      rw [reconcileLoop_cons_eq hash now owner snapshot mf rest db news upds trip heq] at h
      rw [ih _ _ _ _ h hsh hp]
      exact processFile_countP hash now owner snapshot mf db trip hsh heq hp

/-- `reconcile` unfolded over a successful loop run. -/
theorem reconcile_eq (hash : List Nat → String) (now : Nat) (owner : String)
    (files : List MegaFile) (db : Db) (out : Db × List Document × List Document)
    (h : reconcileLoop hash now owner db.documents files db [] [] = Except.ok out) :
    reconcile hash now owner files db = Except.ok
      ({ syncedCount := out.2.1.length, updatedCount := out.2.2.length,
         newDocuments := out.2.1, updatedDocuments := out.2.2 }, out.1) := by
  obtain ⟨db', news, upds⟩ := out
  simp only [reconcile]
  rw [h]

/-- Inversion of a successful `reconcile` run into its loop run. -/
theorem reconcile_inv (hash : List Nat → String) (now : Nat) (owner : String)
    (files : List MegaFile) (db : Db) (r : SyncResult) (db' : Db)
    (h : reconcile hash now owner files db = Except.ok (r, db')) :
    ∃ news upds,
      reconcileLoop hash now owner db.documents files db [] [] = Except.ok (db', news, upds)
      ∧ r = { syncedCount := news.length, updatedCount := upds.length,
              newDocuments := news, updatedDocuments := upds } := by
  simp only [reconcile] at h
  cases hloop : reconcileLoop hash now owner db.documents files db [] [] with
  | error e => rw [hloop] at h; cases h
  | ok out =>
    obtain ⟨db0, news, upds⟩ := out
    rw [hloop] at h
    have hp := Except.ok.inj h
    injection hp with h1 h2
    subst h2
    subst h1
    exact ⟨news, upds, rfl, rfl⟩

/-- A toy executable stand-in for the SHA-256 hex digest, used only to
instantiate concrete runs (the theorems hold for every hash function, in
particular for SHA-256: byte-identical buffers get equal digests). -/
def demoHash (b : List Nat) : String := String.intercalate "-" (b.map toString)

/-- The empty store. -/
def demoDb0 : Db := { documents := [], logs := [], nextId := 0 }

/-- A remote file named `a.txt` with byte content `[1]`. -/
def demoFileA : MegaFile :=
  { fileId := "n1", name := "a.txt", buffer := [1], type := "txt",
    mimeType := "text/plain", size := 1 }

/-- A remote file named `b.txt` with the same byte content `[1]`. -/
def demoFileB : MegaFile :=
  { fileId := "n2", name := "b.txt", buffer := [1], type := "txt",
    mimeType := "text/plain", size := 1 }

/-- C1 (counterexample): two remote files with byte-identical content but
different names, in a store holding no document with their hash.  The run
succeeds with TWO creates and leaves TWO document records carrying the same
hash — the second file is not turned into an update, refuting the claim
that such a run yields exactly one Document record. -/
theorem C1_dedup_counterexample :
    (reconcile demoHash 0 "u1" [demoFileA, demoFileB] demoDb0).map
        (fun out => (out.1.syncedCount, out.1.updatedCount,
          out.2.documents.countP (fun d => d.hash == demoHash [1])))
      = Except.ok (2, 0, 2) := by decide

/-- C1 (amended): the dedup invariant holds relative to the snapshot taken
at the start of the run: no created document carries a hash that a document
already stored before the run carries, and for every hash present before
the run the number of documents carrying it is unchanged.  (Byte-identical
files whose content is new in this run each create a document, because the
lookup uses the pre-loop snapshot.) -/
theorem C1_dedup_amended (hash : List Nat → String) (now : Nat) (owner : String)
    (files : List MegaFile) (db : Db) (r : SyncResult) (db' : Db)
    (h : reconcile hash now owner files db = Except.ok (r, db')) :
    (∀ d ∈ r.newDocuments, ∀ s ∈ db.documents, s.hash ≠ d.hash)
    ∧ ∀ hsh, (∃ s ∈ db.documents, s.hash = hsh) →
        db'.documents.countP (fun d => d.hash == hsh)
          = db.documents.countP (fun d => d.hash == hsh) := by
  obtain ⟨news, upds, hloop, hr⟩ := reconcile_inv hash now owner files db r db' h
  constructor
  · intro d hd s hs
    have hnews : d ∈ news := by rw [hr] at hd; exact hd
    exact reconcileLoop_new_fresh hash now owner db.documents files db [] []
      (db', news, upds) hloop (by intro d' hd'; cases hd') d hnews s hs
  · intro hsh hp
    exact reconcileLoop_countP hash now owner db.documents files db [] []
      (db', news, upds) hloop hsh hp

/-- A document record carrying the hash of buffer `[1]`, for witnesses. -/
def demoDoc1 : Document :=
  { id := 5, name := "a.txt", type := "document", size := 1, description := none,
    tags := "", fileId := "n1", hash := "1", ownerId := "u1", isFavorite := false,
    createdAt := 0, modifiedAt := 0 }

/-- A store holding `demoDoc1`. -/
def demoDbOne : Db := { documents := [demoDoc1], logs := [], nextId := 6 }

/-- The run of C1's amended witness, extracted. -/
def demoRunB : SyncResult × Db :=
  match reconcile demoHash 7 "u1" [demoFileB] demoDbOne with
  | Except.ok p => p
  | Except.error _ => ({ syncedCount := 0, updatedCount := 0,
                         newDocuments := [], updatedDocuments := [] }, demoDbOne)

theorem C1_dedup_amended_witness :
    (∀ d ∈ demoRunB.1.newDocuments, ∀ s ∈ demoDbOne.documents, s.hash ≠ d.hash)
    ∧ ∀ hsh, (∃ s ∈ demoDbOne.documents, s.hash = hsh) →
        demoRunB.2.documents.countP (fun d => d.hash == hsh)
          = demoDbOne.documents.countP (fun d => d.hash == hsh) :=
  C1_dedup_amended demoHash 7 "u1" [demoFileB] demoDbOne demoRunB.1 demoRunB.2 (by rfl)

/-- C2: Idempotence of reconciliation: whatever state a first successful run
over a remote listing produced, a second run over the unchanged listing
succeeds and performs zero creates (every file's hash is already matched by
a stored document). -/
theorem C2_sync_idempotent (hash : List Nat → String) (now1 now2 : Nat) (owner : String)
    (files : List MegaFile) (db : Db) (r1 : SyncResult) (db1 : Db)
    (h : reconcile hash now1 owner files db = Except.ok (r1, db1)) :
    ∃ r2 db2, reconcile hash now2 owner files db1 = Except.ok (r2, db2)
      ∧ r2.syncedCount = 0 := by
  obtain ⟨news, upds, hloop, hr⟩ := reconcile_inv hash now1 owner files db r1 db1 h
  have hcov : ∀ mf ∈ files, ∃ d ∈ db1.documents, d.hash = hash mf.buffer := by
    intro mf hmf
    exact reconcileLoop_covers hash now1 owner db.documents files db [] []
      (db1, news, upds) (fun s hs => ⟨s, hs, rfl, rfl⟩) hloop mf hmf
  obtain ⟨out, hout, hnews⟩ := reconcileLoop_all_matched hash now2 owner db1.documents
    files db1 [] [] (fun s hs => ⟨s, hs, rfl, rfl⟩)
    (fun mf hmf => (hcov mf hmf))
  refine ⟨{ syncedCount := out.2.1.length, updatedCount := out.2.2.length,
            newDocuments := out.2.1, updatedDocuments := out.2.2 }, out.1,
          reconcile_eq hash now2 owner files db1 out hout, ?_⟩
  simp only [hnews, List.length_nil]

/-- The first run of C2's witness, extracted. -/
def demoRunA : SyncResult × Db :=
  match reconcile demoHash 0 "u1" [demoFileA] demoDb0 with
  | Except.ok p => p
  | Except.error _ => ({ syncedCount := 0, updatedCount := 0,
                         newDocuments := [], updatedDocuments := [] }, demoDb0)

theorem C2_sync_idempotent_witness :
    ∃ r2 db2, reconcile demoHash 1 "u1" [demoFileA] demoRunA.2 = Except.ok (r2, db2)
      ∧ r2.syncedCount = 0 :=
  C2_sync_idempotent demoHash 0 1 "u1" [demoFileA] demoDb0 demoRunA.1 demoRunA.2 (by rfl)

/-- C3: update-branch postcondition: when the file's computed hash equals a
snapshot document's stored hash, the loop body classifies the file as an
update (nothing pushed to `newDocuments`), and the updated record has the
remote file's name, the detected type, the merged tags, the remote size and
remote-file reference, the modified timestamp set to `now`, while id, hash,
owner and favorite flag are unchanged; the stored row equals the returned
record and no row is added. -/
theorem C3_update_branch_postcondition (hash : List Nat → String) (now : Nat)
    (owner : String) (snapshot : List Document) (mf : MegaFile) (db : Db)
    (existing cur : Document)
    (hfind : snapshot.find? (fun d => d.hash == hash mf.buffer) = some existing)
    (hcur : db.documents.find? (fun d => d.id == existing.id) = some cur) :
    ∃ db2 u, processFile hash now owner snapshot mf db = Except.ok (db2, none, some u)
      ∧ u.name = mf.name
      ∧ u.type = getDocumentTypeFromFile mf.name (some mf.mimeType)
      ∧ u.tags = addTagFromType (getDocumentTypeFromFile mf.name (some mf.mimeType)) existing.tags
      ∧ u.size = mf.size
      ∧ u.fileId = mf.fileId
      ∧ u.modifiedAt = now
      ∧ u.id = cur.id ∧ u.hash = cur.hash ∧ u.ownerId = cur.ownerId
      ∧ u.isFavorite = cur.isFavorite
      ∧ db2.documents.find? (fun d => d.id == existing.id) = some u
      ∧ db2.documents.length = db.documents.length := by
  have hpair : prismaDocUpdate db.documents existing.id
      (syncUpdateData now mf (getDocumentTypeFromFile mf.name (some mf.mimeType)) existing.tags)
      = some (syncUpdateData now mf (getDocumentTypeFromFile mf.name (some mf.mimeType))
                existing.tags cur,
              db.documents.map (fun d => if d.id == existing.id then
                syncUpdateData now mf (getDocumentTypeFromFile mf.name (some mf.mimeType))
                  existing.tags d else d)) := by
    unfold prismaDocUpdate
    rw [hcur]
  have hpf := processFile_update_eq hash now owner snapshot mf db existing _ hfind hpair
  refine ⟨_, _, hpf, rfl, rfl, rfl, rfl, rfl, rfl, rfl, rfl, rfl, rfl, ?_, ?_⟩
  · show (db.documents.map _).find? _ = _
    rw [List.find?_map]
    have hp : ((fun d : Document => d.id == existing.id) ∘ (fun d =>
        if d.id == existing.id then
          syncUpdateData now mf (getDocumentTypeFromFile mf.name (some mf.mimeType))
            existing.tags d else d))
        = (fun d : Document => d.id == existing.id) := by
      funext d
      by_cases hd : d.id = existing.id
      · simp [hd, syncUpdateData]
      · simp [hd]
    rw [hp, hcur]
    have hcurid : cur.id = existing.id := by
      have := List.find?_some hcur
      simpa using this
    simp [hcurid]
  · show (db.documents.map _).length = _
    exact List.length_map _ _

/-- The concrete update-branch run of C3's witness. -/
theorem C3_update_branch_witness :
    ∃ db2 u, processFile demoHash 9 "u1" [demoDoc1] demoFileB demoDbOne
        = Except.ok (db2, none, some u)
      ∧ u.name = demoFileB.name
      ∧ u.type = getDocumentTypeFromFile demoFileB.name (some demoFileB.mimeType)
      ∧ u.tags = addTagFromType (getDocumentTypeFromFile demoFileB.name
          (some demoFileB.mimeType)) demoDoc1.tags
      ∧ u.size = demoFileB.size
      ∧ u.fileId = demoFileB.fileId
      ∧ u.modifiedAt = 9
      ∧ u.id = demoDoc1.id ∧ u.hash = demoDoc1.hash ∧ u.ownerId = demoDoc1.ownerId
      ∧ u.isFavorite = demoDoc1.isFavorite
      ∧ db2.documents.find? (fun d => d.id == demoDoc1.id) = some u
      ∧ db2.documents.length = demoDbOne.documents.length :=
  C3_update_branch_postcondition demoHash 9 "u1" [demoDoc1] demoFileB demoDbOne
    demoDoc1 demoDoc1 (by decide) (by decide)

/-! ### Lemmas about the gateway listing -/

/-- A node whose download fails contributes nothing to the listing. -/
theorem keepNode_error (n : MegaNode) (e : String) (h : n.download = Except.error e) :
    keepNode n = none := by
  obtain ⟨nid, nm, dir, par, dl⟩ := n
  simp only at h
  subst h
  cases nid with
  | none => rfl
  | some nid =>
    cases nm with
    | none => rfl
    | some nm =>
      simp only [keepNode]
      split_ifs <;> rfl

/-- A node whose successful download is empty contributes nothing to the
listing. -/
theorem keepNode_empty (n : MegaNode) (h : n.download = Except.ok []) :
    keepNode n = none := by
  obtain ⟨nid, nm, dir, par, dl⟩ := n
  simp only at h
  subst h
  cases nid with
  | none => rfl
  | some nid =>
    cases nm with
    | none => rfl
    | some nm =>
      simp only [keepNode]
      split_ifs <;> first | rfl | simp_all

/-- Every listing entry has a non-empty buffer, a non-empty node id and a
non-empty name, and its size is the buffer length. -/
theorem keepNode_wellformed (n : MegaNode) (mf : MegaFile) (h : keepNode n = some mf) :
    mf.buffer ≠ [] ∧ mf.fileId ≠ "" ∧ mf.name ≠ "" ∧ mf.size = mf.buffer.length := by
  obtain ⟨nid, nm, dir, par, dl⟩ := n
  cases nid with
  | none => cases h
  | some nid =>
    cases nm with
    | none => cases h
    | some nm =>
      cases dl with
      | error e => simp [keepNode] at h
      | ok buffer =>
        simp only [keepNode] at h
        split_ifs at h with h1 h3
        cases Option.some.inj h
        have hb : buffer ≠ [] := by
          intro hb
          subst hb
          exact h3 rfl
        have hnid : nid ≠ "" := fun hb => h1 (by simp [hb])
        have hnm : nm ≠ "" := fun hb => h1 (by simp [hb])
        exact ⟨hb, hnid, hnm, rfl⟩

/-- Listing a node sequence with a failing download in the middle equals
listing the sequence without that node. -/
theorem collectFiles_skip_error (fs1 fs2 : List MegaNode) (x : MegaNode) (e : String)
    (hx : x.download = Except.error e) :
    collectFiles (fs1 ++ x :: fs2) = collectFiles (fs1 ++ fs2) := by
  unfold collectFiles
  rw [List.filterMap_append, List.filterMap_append]
  simp [List.filterMap_cons, keepNode_error x e hx]

/-- Same for a zero-byte node whose download succeeds. -/
theorem collectFiles_skip_empty (fs1 fs2 : List MegaNode) (z : MegaNode)
    (hz : z.download = Except.ok []) :
    collectFiles (fs1 ++ z :: fs2) = collectFiles (fs1 ++ fs2) := by
  unfold collectFiles
  rw [List.filterMap_append, List.filterMap_append]
  simp [List.filterMap_cons, keepNode_empty z hz]

/-- `reconcile` always succeeds (the update lookup can never miss a row:
the snapshot is the table itself and ids and hashes persist through the
loop), with the two counts summing to the number of listed files. -/
theorem reconcile_total_counts (hash : List Nat → String) (now : Nat) (owner : String)
    (files : List MegaFile) (db : Db) :
    ∃ r db', reconcile hash now owner files db = Except.ok (r, db')
      ∧ r.syncedCount + r.updatedCount = files.length := by
  obtain ⟨out, hout⟩ := reconcileLoop_total hash now owner db.documents files db [] []
    (fun s hs => ⟨s, hs, rfl, rfl⟩)
  have hcount := reconcileLoop_counts hash now owner db.documents files db [] [] out hout
  refine ⟨_, _, reconcile_eq hash now owner files db out hout, ?_⟩
  simpa using hcount

/-- A good remote node under the root: present id and name, non-empty
download. -/
def demoNodeA : MegaNode :=
  { nodeId := some "n1", name := some "a.txt", directory := false,
    parentId := some "root", download := Except.ok [1] }

/-- A second good node. -/
def demoNodeB : MegaNode :=
  { nodeId := some "n2", name := some "b.txt", directory := false,
    parentId := some "root", download := Except.ok [2] }

/-- A node whose download fails. -/
def demoNodeBad : MegaNode :=
  { nodeId := some "n3", name := some "c.txt", directory := false,
    parentId := some "root", download := Except.error "EAGAIN" }

/-- A node whose download succeeds with zero bytes. -/
def demoNodeEmpty : MegaNode :=
  { nodeId := some "n4", name := some "d.txt", directory := false,
    parentId := some "root", download := Except.ok [] }

/-- A storage with one good file under the root and no folder node named
after any user id. -/
def demoStorage : MegaStorage := { rootId := "root", nodes := [demoNodeA] }

/-- A gateway environment that connects successfully for every user. -/
def demoEnv : MegaEnv := { getStorage := fun _ => Except.ok demoStorage }

/-- C4 (code bug): `synchronizeMegaFiles` passes
`(defaultOwnerId, folderId)` into the gateway's `(folderId?, userId?)`
parameters, transposed.  With no folder reference supplied, instead of
fetching the whole account it looks up a folder node whose id equals the
owner id and fails; the account-wide listing the claim requires (the same
gateway call with the folder slot empty) succeeds and returns the one
file. -/
theorem C4_scope_transposed :
    synchronizeMegaFiles demoHash 0 demoEnv "user-1" none demoDb0
      = Except.error "Dossier avec ID user-1 non trouvé"
    ∧ (getAllFilesWithContent demoEnv none (some "user-1")).map List.length
      = Except.ok 1 := by
  constructor <;> rfl

/-- C5: Partial-failure tolerance: a remote file whose download fails is
skipped by the listing (it appears in neither count), and reconciliation
over the listing still succeeds, creating/updating one record per remaining
listed file. -/
theorem C5_partial_failure (hash : List Nat → String) (now : Nat) (owner : String)
    (fs1 fs2 : List MegaNode) (x : MegaNode) (e : String) (db : Db)
    (hx : x.download = Except.error e) :
    collectFiles (fs1 ++ x :: fs2) = collectFiles (fs1 ++ fs2)
    ∧ ∃ r db', reconcile hash now owner (collectFiles (fs1 ++ x :: fs2)) db
        = Except.ok (r, db')
      ∧ r.syncedCount + r.updatedCount = (collectFiles (fs1 ++ fs2)).length := by
  have hskip := collectFiles_skip_error fs1 fs2 x e hx
  refine ⟨hskip, ?_⟩
  obtain ⟨r, db', hrun, hcount⟩ :=
    reconcile_total_counts hash now owner (collectFiles (fs1 ++ x :: fs2)) db
  exact ⟨r, db', hrun, by rw [hcount, hskip]⟩

/-- C5 witness: a 3-file listing with one failing download yields counts
summing to 2 and no error. -/
theorem C5_partial_failure_witness :
    collectFiles ([demoNodeA] ++ demoNodeBad :: [demoNodeB])
        = collectFiles ([demoNodeA] ++ [demoNodeB])
    ∧ ∃ r db', reconcile demoHash 0 "u1"
        (collectFiles ([demoNodeA] ++ demoNodeBad :: [demoNodeB])) demoDb0
        = Except.ok (r, db')
      ∧ r.syncedCount + r.updatedCount
          = (collectFiles ([demoNodeA] ++ [demoNodeB])).length :=
  C5_partial_failure demoHash 0 "u1" [demoNodeA] [demoNodeB] demoNodeBad "EAGAIN"
    demoDb0 (by rfl)

/-- C9 (implicit): every entry returned by the listing loop has a non-empty
buffer, a non-empty node id and a non-empty name (with size equal to the
buffer length), and a zero-byte file whose download succeeds is skipped, so
empty remote files never reach the reconciler. -/
theorem C9_listing_wellformed :
    (∀ (nodes : List MegaNode), ∀ mf ∈ collectFiles nodes,
        mf.buffer ≠ [] ∧ mf.fileId ≠ "" ∧ mf.name ≠ "" ∧ mf.size = mf.buffer.length)
    ∧ (∀ (fs1 fs2 : List MegaNode) (z : MegaNode), z.download = Except.ok [] →
        collectFiles (fs1 ++ z :: fs2) = collectFiles (fs1 ++ fs2)) := by
  constructor
  · intro nodes mf hmf
    obtain ⟨n, _, hn⟩ := List.mem_filterMap.mp hmf
    exact keepNode_wellformed n mf hn
  · intro fs1 fs2 z hz
    exact collectFiles_skip_empty fs1 fs2 z hz

/-- C9 witness: the zero-byte node is skipped, and the listing of the
remaining nodes is well-formed at a concrete entry. -/
theorem C9_listing_wellformed_witness :
    collectFiles ([demoNodeA] ++ demoNodeEmpty :: []) = collectFiles ([demoNodeA] ++ [])
    ∧ ∀ mf ∈ collectFiles [demoNodeA, demoNodeEmpty],
        mf.buffer ≠ [] ∧ mf.fileId ≠ "" ∧ mf.name ≠ "" ∧ mf.size = mf.buffer.length :=
  ⟨C9_listing_wellformed.2 [demoNodeA] [] demoNodeEmpty (by rfl),
   fun mf hmf => C9_listing_wellformed.1 [demoNodeA, demoNodeEmpty] mf hmf⟩

/-- C7: Deletion resilience and ordering: when the document's remote file
reference cannot be located (the remote delete errors), `deleteDocument`
still removes the local record and returns the success message, with the
failure downgraded to a warning; and in every successful deletion the audit
entry is written strictly before the physical record delete. -/
theorem C7_delete_resilient (env : MegaEnv) (id : Nat) (userId : String)
    (folderId : Option String) (db : Db) (document : Document) (e : String)
    (hfind : db.documents.find? (fun d => d.id == id) = some document)
    (hfile : document.fileId ≠ "")
    (hremote : megaDeleteFile env document.fileId document.ownerId folderId
      = Except.error e) :
    deleteDocument env id userId folderId db
      = Except.ok ({ message := "Document supprimé avec succès",
                     events := [DelEvent.auditLogged, DelEvent.remoteDeleteWarned,
                                DelEvent.dbDeleted] },
          { db with
              documents := db.documents.filter (fun d => !(d.id == id)),
              logs := db.logs ++ [deleteLogEntry document userId] })
    ∧ ∀ (env' : MegaEnv) (id' : Nat) (uid' : String) (fid' : Option String) (db' : Db)
        (o : DeleteOutcome) (st' : Db),
        deleteDocument env' id' uid' fid' db' = Except.ok (o, st') →
        ∃ mid, o.events = DelEvent.auditLogged :: mid ++ [DelEvent.dbDeleted] := by
  constructor
  · simp only [deleteDocument]
    split
    · next hf => rw [hfind] at hf; cases hf
    · next doc hf =>
      rw [hfind] at hf
      cases Option.some.inj hf
      rw [if_pos hfile, hremote]
      rfl
  · intro env' id' uid' fid' db' o st' h
    simp only [deleteDocument] at h
    split at h
    · cases h
    · next doc hf =>
      have hp := Except.ok.inj h
      injection hp with h1 h2
      subst h2
      subst h1
      by_cases hfi : doc.fileId ≠ ""
      · cases hmd : megaDeleteFile env' doc.fileId doc.ownerId fid' with
        | ok s => exact ⟨[DelEvent.remoteDeleted], by simp [hfi, hmd]⟩
        | error e2 => exact ⟨[DelEvent.remoteDeleteWarned], by simp [hfi, hmd]⟩
      · exact ⟨[], by simp [hfi]⟩

/-- A document whose remote reference is absent from `demoStorage`. -/
def demoDocGone : Document :=
  { id := 8, name := "gone.txt", type := "document", size := 1, description := none,
    tags := "", fileId := "zz", hash := "9", ownerId := "u1", isFavorite := false,
    createdAt := 0, modifiedAt := 0 }

/-- A store holding `demoDocGone`. -/
def demoDbGone : Db := { documents := [demoDocGone], logs := [], nextId := 9 }

theorem C7_delete_resilient_witness :
    deleteDocument demoEnv 8 "u1" none demoDbGone
      = Except.ok ({ message := "Document supprimé avec succès",
                     events := [DelEvent.auditLogged, DelEvent.remoteDeleteWarned,
                                DelEvent.dbDeleted] },
          { demoDbGone with
              documents := demoDbGone.documents.filter (fun d => !(d.id == 8)),
              logs := demoDbGone.logs ++ [deleteLogEntry demoDocGone "u1"] }) :=
  (C7_delete_resilient demoEnv 8 "u1" none demoDbGone demoDocGone "Fichier non trouvé"
    (by decide) (by decide) (by rfl)).1

/-- C8: the activity log's write operation never throws outward: whatever
failure the underlying `prisma.log.create` raises, `LogService.log` returns
normally, appending the entry on success and printing the error on
failure. -/
theorem C8_log_never_throws (failure : Option String) (entry : LogEntry) (st : LogState) :
    ∃ st', LogService.log failure entry st = Except.ok st'
      ∧ (failure = none → st' = { st with entries := st.entries ++ [entry] })
      ∧ (∀ e, failure = some e →
          st' = { st with printed := st.printed
            ++ ["Erreur lors de l enregistrement du log: " ++ e] }) := by
  cases failure with
  | none => exact ⟨_, rfl, ⟨fun _ => rfl, fun e he => Option.noConfusion he⟩⟩
  | some e =>
    refine ⟨_, rfl, ⟨fun h => Option.noConfusion h, fun e' he' => ?_⟩⟩
    cases Option.some.inj he'
    rfl

/-- A sample log entry for witnesses. -/
def demoEntry : LogEntry :=
  { action := "DOCUMENT_SYNC", entity := "DOCUMENT", entityId := "1",
    details := none, userId := none, documentId := none }

/-- The empty log state. -/
def demoLogSt : LogState := { entries := [], printed := [] }

theorem C8_log_never_throws_witness :
    ∃ st', LogService.log (some "boom") demoEntry demoLogSt = Except.ok st'
      ∧ ((some "boom" : Option String) = none →
          st' = { demoLogSt with entries := demoLogSt.entries ++ [demoEntry] })
      ∧ (∀ e, (some "boom" : Option String) = some e →
          st' = { demoLogSt with printed := demoLogSt.printed
            ++ ["Erreur lors de l enregistrement du log: " ++ e] }) :=
  C8_log_never_throws (some "boom") demoEntry demoLogSt

/-- Characterization of one successful `toggleFavorite` call. -/
theorem toggleFavorite_eq (now : Nat) (id : Nat) (uid : String) (db : Db) (doc : Document)
    (hfind : db.documents.find? (fun d => d.id == id) = some doc) :
    toggleFavorite now id uid db = Except.ok
      ({ doc with isFavorite := !doc.isFavorite, modifiedAt := now },
       { db with
           documents := db.documents.map (fun d => if d.id == id then
             { d with isFavorite := !doc.isFavorite, modifiedAt := now } else d),
           logs := db.logs ++ [favoriteLogEntry
             { doc with isFavorite := !doc.isFavorite, modifiedAt := now } uid] }) := by
  simp only [toggleFavorite]
  split
  · next hf => rw [hfind] at hf; cases hf
  · next document hf =>
    rw [hfind] at hf
    cases Option.some.inj hf
    have hpair : prismaDocUpdate db.documents id
        (fun d => { d with isFavorite := !doc.isFavorite, modifiedAt := now })
        = some ({ doc with isFavorite := !doc.isFavorite, modifiedAt := now },
            db.documents.map (fun d => if d.id == id then
              { d with isFavorite := !doc.isFavorite, modifiedAt := now } else d)) := by
      unfold prismaDocUpdate
      rw [hfind]
    split
    · next hupd => rw [hpair] at hupd; cases hupd
    · next u docs hupd =>
      rw [hpair] at hupd
      cases Option.some.inj hupd
      rfl

/-- `find?` by id after an id-preserving in-place update. -/
theorem find?_map_id_preserving (docs : List Document) (i : Nat)
    (g : Document → Document) (doc : Document)
    (hg : ∀ x, (g x).id = x.id)
    (hfind : docs.find? (fun d => d.id == i) = some doc) :
    (docs.map (fun d => if d.id == i then g d else d)).find? (fun d => d.id == i)
      = some (g doc) := by
  rw [List.find?_map]
  have hp : ((fun d : Document => d.id == i) ∘ (fun d => if d.id == i then g d else d))
      = (fun d : Document => d.id == i) := by
    funext d
    by_cases hd : d.id = i
    · simp [hd, hg]
    · simp [hd]
  rw [hp, hfind]
  have hdoc : doc.id = i := by
    have := List.find?_some hfind
    simpa using this
  simp [hdoc]

/-- C10 (implicit): `toggleFavorite` is an involution on the favorite flag:
one call flips `isFavorite` and leaves name, type, tags, size, hash, owner,
file reference, description, creation timestamp and id unchanged; a second
call restores the original `isFavorite` value. -/
theorem C10_toggleFavorite_involution (now1 now2 : Nat) (id : Nat) (uid : String)
    (db : Db) (doc : Document)
    (hfind : db.documents.find? (fun d => d.id == id) = some doc) :
    ∃ u db1, toggleFavorite now1 id uid db = Except.ok (u, db1)
      ∧ u.isFavorite = !doc.isFavorite
      ∧ u.name = doc.name ∧ u.type = doc.type ∧ u.tags = doc.tags ∧ u.size = doc.size
      ∧ u.hash = doc.hash ∧ u.ownerId = doc.ownerId ∧ u.fileId = doc.fileId
      ∧ u.description = doc.description ∧ u.createdAt = doc.createdAt ∧ u.id = doc.id
      ∧ ∃ u2 db2, toggleFavorite now2 id uid db1 = Except.ok (u2, db2)
          ∧ u2.isFavorite = doc.isFavorite := by
  have h1 := toggleFavorite_eq now1 id uid db doc hfind
  have hfind2 : (db.documents.map (fun d => if d.id == id then
      { d with isFavorite := !doc.isFavorite, modifiedAt := now1 } else d)).find?
      (fun d => d.id == id)
      = some { doc with isFavorite := !doc.isFavorite, modifiedAt := now1 } :=
    find?_map_id_preserving db.documents id _ doc (fun x => rfl) hfind
  have h2 := toggleFavorite_eq now2 id uid
    { db with
        documents := db.documents.map (fun d => if d.id == id then
          { d with isFavorite := !doc.isFavorite, modifiedAt := now1 } else d),
        logs := db.logs ++ [favoriteLogEntry
          { doc with isFavorite := !doc.isFavorite, modifiedAt := now1 } uid] }
    { doc with isFavorite := !doc.isFavorite, modifiedAt := now1 } hfind2
  refine ⟨_, _, h1, rfl, rfl, rfl, rfl, rfl, rfl, rfl, rfl, rfl, rfl, rfl, ?_⟩
  exact ⟨_, _, h2, Bool.not_not doc.isFavorite⟩

theorem C10_toggleFavorite_involution_witness :
    ∃ u db1, toggleFavorite 3 5 "u1" demoDbOne = Except.ok (u, db1)
      ∧ u.isFavorite = !demoDoc1.isFavorite
      ∧ u.name = demoDoc1.name ∧ u.type = demoDoc1.type ∧ u.tags = demoDoc1.tags
      ∧ u.size = demoDoc1.size
      ∧ u.hash = demoDoc1.hash ∧ u.ownerId = demoDoc1.ownerId
      ∧ u.fileId = demoDoc1.fileId
      ∧ u.description = demoDoc1.description ∧ u.createdAt = demoDoc1.createdAt
      ∧ u.id = demoDoc1.id
      ∧ ∃ u2 db2, toggleFavorite 4 5 "u1" db1 = Except.ok (u2, db2)
          ∧ u2.isFavorite = demoDoc1.isFavorite :=
  C10_toggleFavorite_involution 3 4 5 "u1" demoDbOne demoDoc1 (by decide)

end FilesCore
